import Mathlib

/-!
# Timeline sequencer of `src/game/events.c`

A shallow embedding of the event sequencer (`events_start`, `events_stop`,
`events_beforeFrame`, `events_on`) and of the preset sequences that the file
defines, followed by theorems about them.

Conventions of the embedding:

* C `float` values (`time`, `delay`, `duration`, `alpha`, `dt`) are exact
  rationals `ℚ`: the arithmetic of the sequencer is read without rounding,
  infinities or NaN.
* `EventsSequence*` arguments become explicit state passing.
* The pair `events` / `count` of the C struct is a `List EventsEvent`; `count`
  is its length.
* `events_beforeFrame` calls itself on a loop wrap.  The recursion carries a
  fuel argument bounding the depth of the call stack; running out of fuel is
  the fault `Fault.outOfFuel`.
* `DEBUG_ASSERT` halts a debug build (`Fault.assertFailed`) and is compiled out
  of a release build; the build is the `debug` argument.
-/

namespace Events

/-! ## Data model -/

/-- Modelled from the spec: the event identifiers of `events.h`, which is not
part of the sources. The "none" sentinel is the value of a zero-initialised
`id` (the presets omit `.id` for segments that report nothing), the other
identifiers are pairwise distinct and different from the sentinel. -/
def EVENTS_NONE : Int := 0

/-- Modelled from the spec: identifier of the title event (`events.h`). -/
def EVENTS_TITLE : Int := 1

/-- Modelled from the spec: identifier of the subtitle event (`events.h`). -/
def EVENTS_SUBTITLE : Int := 2

/-- Modelled from the spec: identifier of the display event (`events.h`). -/
def EVENTS_DISPLAY : Int := 3

/-- Modelled from the spec: identifier of the fade event (`events.h`). -/
def EVENTS_FADE : Int := 4

/-- Modelled from the spec: identifier of the restart event (`events.h`). -/
def EVENTS_RESTART : Int := 5

/-- The constant `#define MIN_EVENT_TIME 50`. -/
def MIN_EVENT_TIME : ℚ := 50

/-- Modelled from the spec: the struct `EventsEvent` of `events.h` (a segment:
delay, duration, event id). Omitted fields of a C initialiser are zero. -/
structure EventsEvent where
  delay : ℚ := 0
  duration : ℚ := 0
  id : Int := EVENTS_NONE
  deriving DecidableEq

/-- Modelled from the spec: the struct `EventsSequence` of `events.h`: the
segment list, the loop flag and the cursor fields written by the sequencer. -/
structure EventsSequence where
  events : List EventsEvent := []
  loop : Bool := false
  running : Bool := false
  time : ℚ := 0
  triggeredEvent : Int := EVENTS_NONE
  complete : Bool := false
  alpha : ℚ := 0
  deriving DecidableEq

/-- The field `count`: the number of segments of the list. -/
def EventsSequence.count (sequence : EventsSequence) : Nat :=
  sequence.events.length

/-- Ways in which a call does not return a state. -/
inductive Fault where
  | assertFailed
  | outOfFuel
  deriving DecidableEq

/-- Modelled from the spec: the macro `DEBUG_ASSERT` of `shared/debug.h`, which
is not part of the sources. In a debug build a false condition halts
execution; in a release build the check is compiled out. -/
def DEBUG_ASSERT (debug : Bool) (cond : Bool) : Except Fault Unit :=
  if debug && !cond then .error Fault.assertFailed else .ok ()

/-! ## Operations -/

/-- `events_start`: initialise a sequence to "running". -/
def events_start (sequence : EventsSequence) : EventsSequence :=
  if sequence.running then sequence
  else
    { sequence with
      running := true
      time := 0
      triggeredEvent := EVENTS_NONE
      complete := false
      alpha := 0 }

/-- `events_stop`: stop and reset a sequence. -/
def events_stop (sequence : EventsSequence) : EventsSequence :=
  { sequence with
    running := false
    time := 0
    triggeredEvent := EVENTS_NONE
    complete := false
    alpha := 0 }

/-- The `for` loop of `events_beforeFrame` over the remaining segments. The
arguments are the sequence (whose `time` is already advanced), `lastTime` and
the local `end`; the result is the sequence and `end` when the loop is left
(by `break` or by exhausting the segments). The local `start` is not read
after the loop. -/
def scanEvents (debug : Bool) (lastTime : ℚ) :
    List EventsEvent → EventsSequence → ℚ → Except Fault (EventsSequence × ℚ)
  | [], sequence, endT => .ok (sequence, endT)
  | event :: rest, sequence, endT =>
    match DEBUG_ASSERT debug
        (decide (event.delay > MIN_EVENT_TIME) || decide (event.duration > MIN_EVENT_TIME)) with
    | .error f => .error f
    | .ok _ =>
      let start := endT + event.delay
      let endT := start + event.duration
      if start ≤ sequence.time ∧ endT ≥ lastTime then
        let alpha :=
          if event.duration > 0 then
            (if (sequence.time - start) / event.duration > 1 then 1
             else (sequence.time - start) / event.duration)
          else sequence.alpha
        .ok ({ sequence with alpha := alpha, triggeredEvent := event.id }, endT)
      else scanEvents debug lastTime rest sequence endT

/-- Lines 58-80 of `events_beforeFrame` for a running sequence: reset
`triggeredEvent` and `alpha`, advance `time` by `dt`, and scan the segments
starting from `end = 0`. -/
def scanFrame (debug : Bool) (sequence : EventsSequence) (dt : ℚ) :
    Except Fault (EventsSequence × ℚ) :=
  let lastTime := sequence.time
  let advanced :=
    { sequence with triggeredEvent := EVENTS_NONE, alpha := 0, time := lastTime + dt }
  scanEvents debug lastTime advanced.events advanced 0

/-- `events_beforeFrame`: move a sequence forward by `dt` milliseconds. The
first argument after the build flag is the fuel for the recursive call of the
loop wrap. -/
def events_beforeFrame (debug : Bool) :
    Nat → EventsSequence → ℚ → Except Fault EventsSequence
  | 0, _, _ => .error Fault.outOfFuel
  | fuel + 1, sequence, dt =>
    if !sequence.running then .ok sequence
    else
      let lastTime := sequence.time
      match scanFrame debug sequence dt with
      | .error f => .error f
      | .ok (scanned, endT) =>
        if scanned.triggeredEvent = EVENTS_NONE ∧ lastTime > endT then
          if scanned.loop then
            let loopDt := lastTime - endT + dt
            events_beforeFrame debug fuel { scanned with time := 0 } loopDt
          else .ok { scanned with running := false, complete := true }
        else .ok scanned

/-- `events_on`: check the currently active event. The function receives the
sequence by pointer; the second component is the sequence after the call. -/
def events_on (sequence : EventsSequence) (id : Int) : Bool × EventsSequence :=
  if !sequence.running || sequence.triggeredEvent == EVENTS_NONE then (false, sequence)
  else (sequence.triggeredEvent == id, sequence)

/-! ## Preset sequences -/

/-- The table `titleControlEvents`. -/
def titleControlEvents : List EventsEvent :=
  [ { delay := 1600, id := EVENTS_TITLE },
    { delay := 1600, id := EVENTS_SUBTITLE } ]

/-- The preset `events_titleControlSequence`. -/
def events_titleControlSequence : EventsSequence :=
  { events := titleControlEvents }

/-- The table `titleEvents`. -/
def titleEvents : List EventsEvent :=
  [ { duration := 2000, id := EVENTS_DISPLAY },
    { duration := 2500, id := EVENTS_FADE } ]

/-- The preset `events_titleSequence`. -/
def events_titleSequence : EventsSequence :=
  { events := titleEvents }

/-- The table `gameOverRestartEvents`. -/
def gameOverRestartEvents : List EventsEvent :=
  [ { duration := 1000, id := EVENTS_DISPLAY },
    { duration := 1000 } ]

/-- The preset `events_gameOverRestartSequence`. -/
def events_gameOverRestartSequence : EventsSequence :=
  { events := gameOverRestartEvents, loop := true }

/-- The empty looping timeline running at `time = 5`: a sample input for the
wrap of a timeline without segments. -/
def emptyLoopSequence : EventsSequence :=
  { events := [], loop := true, running := true, time := 5 }

/-- The title sequence completed: the state after `events_start`, a frame of
5000 and a frame of 0. -/
def titleCompleted : EventsSequence :=
  { events := titleEvents, complete := true, time := 5000 }

/-- Feed a list of frame times to `events_beforeFrame`, one call per frame,
stopping at the first fault. -/
def runFrames (debug : Bool) (fuel : Nat) :
    EventsSequence → List ℚ → Except Fault EventsSequence
  | sequence, [] => .ok sequence
  | sequence, dt :: dts =>
    match events_beforeFrame debug fuel sequence dt with
    | .error f => .error f
    | .ok next => runFrames debug fuel next dts

/-! ## Windows as the specification words them -/

/-- The end of the window before segment `i`: `windowEnd_(i-1)`, with
`windowEnd_(-1) = 0`. -/
def priorWindowEnd (events : List EventsEvent) : Nat → ℚ
  | 0 => 0
  | i + 1 =>
    priorWindowEnd events i + (events.getD i {}).delay + (events.getD i {}).duration

/-- The window start `windowStart_i = windowEnd_(i-1) + delay_i`. -/
def windowStart (events : List EventsEvent) (i : Nat) : ℚ :=
  priorWindowEnd events i + (events.getD i {}).delay

/-- The window end `windowEnd_i = windowStart_i + duration_i`. -/
def windowEnd (events : List EventsEvent) (i : Nat) : ℚ :=
  windowStart events i + (events.getD i {}).duration

/-- The match test of the specification for segment `i`:
`windowStart_i <= elapsed && windowEnd_i >= previousElapsed`. -/
def windowHit (events : List EventsEvent) (elapsed previousElapsed : ℚ) (i : Nat) : Prop :=
  windowStart events i ≤ elapsed ∧ windowEnd events i ≥ previousElapsed

/-- A segment meets the minimum threshold checked by the assertion. -/
def meetsThreshold (event : EventsEvent) : Prop :=
  event.delay > MIN_EVENT_TIME ∨ event.duration > MIN_EVENT_TIME

/-- A segment has non-negative delay and duration. -/
def nonNegative (event : EventsEvent) : Prop :=
  0 ≤ event.delay ∧ 0 ≤ event.duration

/-- The assertions of a scan cannot fail: the build is a release build, or
every segment meets the threshold. -/
def assertsPass (debug : Bool) (events : List EventsEvent) : Prop :=
  debug = true → ∀ event ∈ events, meetsThreshold event

/-- The cumulative window end started from `base` instead of 0: the value of
the local `end` after `i` segments of a scan entered with `end = base`. -/
def priorWindowEndFrom (base : ℚ) (events : List EventsEvent) : Nat → ℚ
  | 0 => base
  | i + 1 =>
    priorWindowEndFrom base events i + (events.getD i {}).delay + (events.getD i {}).duration

/-- The total span of a timeline: the sum of all delays and durations. -/
def totalSpan (events : List EventsEvent) : ℚ :=
  (events.map (fun event => event.delay + event.duration)).sum

/-- The match test for segment `i` with windows cumulative from `base`. -/
def windowHitFrom (base : ℚ) (events : List EventsEvent) (elapsed previousElapsed : ℚ)
    (i : Nat) : Prop :=
  priorWindowEndFrom base events i + (events.getD i {}).delay ≤ elapsed ∧
    priorWindowEndFrom base events (i + 1) ≥ previousElapsed

/-- The states reachable from the idle state of a timeline (segment list and
loop flag) by calls of `events_start`, `events_stop` and returning calls of
`events_beforeFrame`. -/
inductive Reachable (debug : Bool) (events : List EventsEvent) (loop : Bool) :
    EventsSequence → Prop
  | idle : Reachable debug events loop { events := events, loop := loop }
  | start {s : EventsSequence} :
      Reachable debug events loop s → Reachable debug events loop (events_start s)
  | stop {s : EventsSequence} :
      Reachable debug events loop s → Reachable debug events loop (events_stop s)
  | beforeFrame {s next : EventsSequence} (fuel : Nat) (dt : ℚ) :
      Reachable debug events loop s → events_beforeFrame debug fuel s dt = .ok next →
      Reachable debug events loop next

/-! ## The scan -/

/-- A scan whose first assertion passes either stops at the first segment or
continues with the rest. -/
theorem scanEvents_cons_of_pass (debug : Bool) (lastTime : ℚ) (event : EventsEvent)
    (rest : List EventsEvent) (seq : EventsSequence) (base : ℚ)
    (hpass : debug = true → meetsThreshold event) :
    scanEvents debug lastTime (event :: rest) seq base =
      if base + event.delay ≤ seq.time ∧ base + event.delay + event.duration ≥ lastTime then
        .ok ({ seq with
                alpha :=
                  if event.duration > 0 then
                    (if (seq.time - (base + event.delay)) / event.duration > 1 then 1
                     else (seq.time - (base + event.delay)) / event.duration)
                  else seq.alpha
                triggeredEvent := event.id },
             base + event.delay + event.duration)
      else scanEvents debug lastTime rest seq (base + event.delay + event.duration) := by
  have hassert : DEBUG_ASSERT debug
      (decide (event.delay > MIN_EVENT_TIME) || decide (event.duration > MIN_EVENT_TIME))
        = .ok () := by
    cases debug with
    | false => simp [DEBUG_ASSERT]
    | true =>
      have h := hpass rfl
      unfold meetsThreshold at h
      simp only [DEBUG_ASSERT]
      rcases h with h | h <;> simp [h]
  rw [scanEvents, hassert]

/-- A scan that returns either stopped at the first segment or continued with
the rest. -/
theorem scanEvents_cons_of_ok {debug : Bool} {lastTime : ℚ} {event : EventsEvent}
    {rest : List EventsEvent} {seq : EventsSequence} {base : ℚ}
    {r : EventsSequence × ℚ}
    (h : scanEvents debug lastTime (event :: rest) seq base = .ok r) :
    (if base + event.delay ≤ seq.time ∧ base + event.delay + event.duration ≥ lastTime then
        (.ok ({ seq with
                alpha :=
                  if event.duration > 0 then
                    (if (seq.time - (base + event.delay)) / event.duration > 1 then 1
                     else (seq.time - (base + event.delay)) / event.duration)
                  else seq.alpha
                triggeredEvent := event.id },
             base + event.delay + event.duration) : Except Fault (EventsSequence × ℚ))
      else scanEvents debug lastTime rest seq (base + event.delay + event.duration)) = .ok r := by
  rw [scanEvents] at h
  cases hassert : DEBUG_ASSERT debug
      (decide (event.delay > MIN_EVENT_TIME) || decide (event.duration > MIN_EVENT_TIME)) with
  | error f => rw [hassert] at h; cases h
  | ok u => rw [hassert] at h; exact h

/-- A scan whose assertions pass returns. -/
theorem scanEvents_returns (debug : Bool) (lastTime : ℚ) (events : List EventsEvent)
    (hpass : assertsPass debug events) (seq : EventsSequence) (base : ℚ) :
    ∃ r, scanEvents debug lastTime events seq base = .ok r := by
  induction events generalizing base with
  | nil => exact ⟨_, rfl⟩
  | cons event rest ih =>
    rw [scanEvents_cons_of_pass debug lastTime event rest seq base
      (fun hd => hpass hd event (List.mem_cons_self _ _))]
    split
    · exact ⟨_, rfl⟩
    · exact ih (fun hd e he => hpass hd e (List.mem_cons_of_mem _ he)) _

/-- A scan writes only `alpha` and `triggeredEvent`. -/
theorem scanEvents_frame (debug : Bool) (lastTime : ℚ) (events : List EventsEvent)
    (seq : EventsSequence) (base : ℚ) (r : EventsSequence × ℚ)
    (h : scanEvents debug lastTime events seq base = .ok r) :
    r.1.events = seq.events ∧ r.1.loop = seq.loop ∧ r.1.running = seq.running ∧
    r.1.complete = seq.complete ∧ r.1.time = seq.time := by
  induction events generalizing base with
  | nil =>
    simp only [scanEvents, Except.ok.injEq] at h
    subst h
    simp
  | cons event rest ih =>
    have h2 := scanEvents_cons_of_ok h
    split at h2
    · simp only [Except.ok.injEq] at h2
      subst h2
      simp
    · exact ih _ h2

/-- With non-negative delays and durations the local `end` never decreases. -/
theorem scanEvents_end_ge (debug : Bool) (lastTime : ℚ) (events : List EventsEvent)
    (hnonneg : ∀ event ∈ events, nonNegative event)
    (seq : EventsSequence) (base : ℚ) (r : EventsSequence × ℚ)
    (h : scanEvents debug lastTime events seq base = .ok r) :
    base ≤ r.2 := by
  induction events generalizing base with
  | nil =>
    simp only [scanEvents, Except.ok.injEq] at h
    subst h
    exact le_refl _
  | cons event rest ih =>
    have hev := hnonneg event (List.mem_cons_self _ _)
    unfold nonNegative at hev
    have h2 := scanEvents_cons_of_ok h
    split at h2
    · simp only [Except.ok.injEq] at h2
      subst h2
      simp only
      linarith [hev.1, hev.2]
    · have := ih (fun e he => hnonneg e (List.mem_cons_of_mem _ he)) _ h2
      linarith [hev.1, hev.2]

/-- The windows of the specification are the cumulative ends started from 0. -/
theorem priorWindowEnd_eq_from (events : List EventsEvent) (i : Nat) :
    priorWindowEnd events i = priorWindowEndFrom 0 events i := by
  induction i with
  | zero => rfl
  | succ i ih => simp only [priorWindowEnd, priorWindowEndFrom, ih]

/-- Dropping the first segment shifts the cumulative ends by one index. -/
theorem priorWindowEndFrom_cons (base : ℚ) (event : EventsEvent) (rest : List EventsEvent)
    (i : Nat) :
    priorWindowEndFrom base (event :: rest) (i + 1) =
      priorWindowEndFrom (base + event.delay + event.duration) rest i := by
  induction i with
  | zero => simp [priorWindowEndFrom]
  | succ i ih =>
    rw [priorWindowEndFrom, ih]
    simp [priorWindowEndFrom]

/-- The scan stops at the least index whose window passes the match test, with
that segment's id and window end; when no window passes it leaves
`triggeredEvent` alone and ends with the last window end. Windows are
cumulative from the value `base` of `end` on entry. -/
theorem scanEvents_first_hit (debug : Bool) (lastTime : ℚ) (events : List EventsEvent)
    (seq : EventsSequence) (base : ℚ) (r : EventsSequence × ℚ)
    (h : scanEvents debug lastTime events seq base = .ok r) :
    (∀ i, i < events.length →
      (priorWindowEndFrom base events i + (events.getD i {}).delay ≤ seq.time ∧
        priorWindowEndFrom base events (i + 1) ≥ lastTime) →
      (∀ j, j < i →
        ¬ (priorWindowEndFrom base events j + (events.getD j {}).delay ≤ seq.time ∧
          priorWindowEndFrom base events (j + 1) ≥ lastTime)) →
      r.1.triggeredEvent = (events.getD i {}).id ∧
      r.2 = priorWindowEndFrom base events (i + 1)) ∧
    ((∀ i, i < events.length →
        ¬ (priorWindowEndFrom base events i + (events.getD i {}).delay ≤ seq.time ∧
          priorWindowEndFrom base events (i + 1) ≥ lastTime)) →
      r.1.triggeredEvent = seq.triggeredEvent ∧
      r.2 = priorWindowEndFrom base events events.length) := by
  induction events generalizing base with
  | nil =>
    simp only [scanEvents, Except.ok.injEq] at h
    subst h
    refine ⟨fun i hi => absurd hi (Nat.not_lt_zero _), fun _ => ⟨rfl, rfl⟩⟩
  | cons event rest ih =>
    have h2 := scanEvents_cons_of_ok h
    split at h2
    · rename_i hhit
      simp only [Except.ok.injEq] at h2
      subst h2
      constructor
      · intro i _ _ hleast
        cases i with
        | zero => simp [priorWindowEndFrom]
        | succ k =>
          exfalso
          apply hleast 0 (Nat.succ_pos k)
          simpa [priorWindowEndFrom] using hhit
      · intro hnone
        exfalso
        apply hnone 0 (Nat.succ_pos _)
        simpa [priorWindowEndFrom] using hhit
    · rename_i hmiss
      have ih2 := ih (base + event.delay + event.duration) h2
      constructor
      · intro i hi hhit hleast
        cases i with
        | zero =>
          exfalso
          apply hmiss
          simpa [priorWindowEndFrom] using hhit
        | succ k =>
          have hk : k < rest.length := Nat.lt_of_succ_lt_succ hi
          rw [priorWindowEndFrom_cons, priorWindowEndFrom_cons, List.getD_cons_succ] at hhit
          have := ih2.1 k hk hhit (by
            intro j hj hjhit
            apply hleast (j + 1) (Nat.succ_lt_succ hj)
            rw [priorWindowEndFrom_cons, priorWindowEndFrom_cons, List.getD_cons_succ]
            exact hjhit)
          rw [priorWindowEndFrom_cons, List.getD_cons_succ]
          exact this
      · intro hnone
        have := ih2.2 (by
          intro j hj hjhit
          apply hnone (j + 1) (Nat.succ_lt_succ hj)
          rw [priorWindowEndFrom_cons, priorWindowEndFrom_cons, List.getD_cons_succ]
          exact hjhit)
        rw [List.length_cons, priorWindowEndFrom_cons]
        exact this

/-! ## The total span -/

/-- The total span of a list with one more segment in front. -/
theorem totalSpan_cons (event : EventsEvent) (rest : List EventsEvent) :
    totalSpan (event :: rest) = event.delay + event.duration + totalSpan rest := by
  simp [totalSpan]

/-- The last cumulative window end is the entry value of `end` plus the total
span. -/
theorem priorWindowEndFrom_length (base : ℚ) (events : List EventsEvent) :
    priorWindowEndFrom base events events.length = base + totalSpan events := by
  induction events generalizing base with
  | nil => simp [priorWindowEndFrom, totalSpan]
  | cons event rest ih =>
    rw [List.length_cons, priorWindowEndFrom_cons, ih, totalSpan_cons]
    ring

/-- When the advanced `time` is before the entry value of `end` no segment
matches: the scan returns the sequence untouched and `end` is the total span. -/
theorem scanEvents_time_before (debug : Bool) (lastTime : ℚ) (events : List EventsEvent)
    (hnonneg : ∀ event ∈ events, nonNegative event)
    (seq : EventsSequence) (base : ℚ) (r : EventsSequence × ℚ)
    (hbefore : seq.time < base)
    (h : scanEvents debug lastTime events seq base = .ok r) :
    r = (seq, base + totalSpan events) := by
  induction events generalizing base with
  | nil =>
    simp only [scanEvents, Except.ok.injEq] at h
    subst h
    simp [totalSpan]
  | cons event rest ih =>
    have hev := hnonneg event (List.mem_cons_self _ _)
    unfold nonNegative at hev
    have hrest : ∀ e ∈ rest, nonNegative e := fun e he => hnonneg e (List.mem_cons_of_mem _ he)
    have h2 := scanEvents_cons_of_ok h
    rw [if_neg (by intro hc; linarith [hc.1, hev.1])] at h2
    have := ih hrest (base + event.delay + event.duration) (by linarith [hev.1, hev.2]) h2
    rw [this, totalSpan_cons]
    congr 1
    ring

/-- The only fault of a scan is a failed assertion. -/
theorem scanEvents_error (debug : Bool) (lastTime : ℚ) (events : List EventsEvent)
    (seq : EventsSequence) (base : ℚ) (f : Fault)
    (h : scanEvents debug lastTime events seq base = .error f) :
    f = Fault.assertFailed := by
  induction events generalizing base with
  | nil => simp [scanEvents] at h
  | cons event rest ih =>
    rw [scanEvents] at h
    cases hassert : DEBUG_ASSERT debug
        (decide (event.delay > MIN_EVENT_TIME) || decide (event.duration > MIN_EVENT_TIME)) with
    | error g =>
      rw [hassert] at h
      simp only [Except.error.injEq] at h
      subst h
      unfold DEBUG_ASSERT at hassert
      split at hassert
      · simp only [Except.error.injEq] at hassert
        exact hassert.symm
      · cases hassert
    | ok u =>
      rw [hassert] at h
      simp only at h
      split at h
      · cases h
      · exact ih _ h

/-! ## Windows from a base and the assertion -/

/-- The match test of the first segment, with windows cumulative from `base`. -/
theorem windowHitFrom_zero (base : ℚ) (event : EventsEvent) (rest : List EventsEvent)
    (elapsed previousElapsed : ℚ) :
    windowHitFrom base (event :: rest) elapsed previousElapsed 0 ↔
      (base + event.delay ≤ elapsed ∧ base + event.delay + event.duration ≥ previousElapsed) := by
  simp [windowHitFrom, priorWindowEndFrom]

/-- The match test of the specification is the one with windows cumulative
from 0. -/
theorem windowHit_iff_from (events : List EventsEvent) (elapsed previousElapsed : ℚ) (i : Nat) :
    windowHit events elapsed previousElapsed i ↔
      windowHitFrom 0 events elapsed previousElapsed i := by
  simp [windowHit, windowHitFrom, windowEnd, windowStart, priorWindowEnd_eq_from,
    priorWindowEndFrom]

/-- With non-negative delays and durations no cumulative window end is before
the entry value of `end`. -/
theorem priorWindowEndFrom_ge (events : List EventsEvent)
    (hnonneg : ∀ event ∈ events, nonNegative event) (base : ℚ) (i : Nat)
    (hi : i ≤ events.length) :
    base ≤ priorWindowEndFrom base events i := by
  induction events generalizing base i with
  | nil =>
    have : i = 0 := by simpa using hi
    subst this
    simp [priorWindowEndFrom]
  | cons event rest ih =>
    have hev := hnonneg event (List.mem_cons_self _ _)
    unfold nonNegative at hev
    have hrest : ∀ e ∈ rest, nonNegative e := fun e he => hnonneg e (List.mem_cons_of_mem _ he)
    cases i with
    | zero => simp [priorWindowEndFrom]
    | succ k =>
      rw [priorWindowEndFrom_cons]
      have := ih hrest (base + event.delay + event.duration) k (Nat.le_of_succ_le_succ hi)
      linarith [hev.1, hev.2]

/-- The scan of a frame returns when its assertions pass. -/
theorem scanFrame_returns (debug : Bool) (s : EventsSequence) (dt : ℚ)
    (hpass : assertsPass debug s.events) :
    ∃ r, scanFrame debug s dt = .ok r :=
  scanEvents_returns debug s.time s.events hpass _ 0

/-- The scan of a frame advances `time` by `dt` and keeps the segment list,
the loop flag, `running` and `complete`. -/
theorem scanFrame_frame {debug : Bool} {s : EventsSequence} {dt : ℚ}
    {r : EventsSequence × ℚ} (h : scanFrame debug s dt = .ok r) :
    r.1.events = s.events ∧ r.1.loop = s.loop ∧ r.1.running = s.running ∧
    r.1.complete = s.complete ∧ r.1.time = s.time + dt :=
  scanEvents_frame debug s.time s.events _ 0 r h

/-- With non-negative delays and durations the scan of a frame ends with a
non-negative `end`. -/
theorem scanFrame_end_nonneg {debug : Bool} {s : EventsSequence} {dt : ℚ}
    {r : EventsSequence × ℚ} (hnonneg : ∀ event ∈ s.events, nonNegative event)
    (h : scanFrame debug s dt = .ok r) : 0 ≤ r.2 :=
  scanEvents_end_ge debug s.time s.events hnonneg _ 0 r h

/-! ## The frame step -/

/-- The body of `events_beforeFrame` after the scan, for a running sequence. -/
theorem beforeFrame_running (debug : Bool) (fuel : Nat) (s : EventsSequence) (dt : ℚ)
    (hrun : s.running = true) {scanned : EventsSequence} {endT : ℚ}
    (hscan : scanFrame debug s dt = .ok (scanned, endT)) :
    events_beforeFrame debug (fuel + 1) s dt =
      if scanned.triggeredEvent = EVENTS_NONE ∧ s.time > endT then
        if scanned.loop then
          events_beforeFrame debug fuel { scanned with time := 0 } (s.time - endT + dt)
        else .ok { scanned with running := false, complete := true }
      else .ok scanned := by
  rw [events_beforeFrame]
  simp only [hrun, hscan, Bool.not_true, Bool.false_eq_true, if_false]

/-- A frame on a running sequence whose `time` is not positive returns the
scanned sequence: with non-negative delays and durations neither the wrap nor
the completion branch is taken. -/
theorem beforeFrame_of_time_nonpos (debug : Bool) (fuel : Nat) (s : EventsSequence) (dt : ℚ)
    (hrun : s.running = true) (htime : s.time ≤ 0)
    (hnonneg : ∀ event ∈ s.events, nonNegative event)
    {scanned : EventsSequence} {endT : ℚ}
    (hscan : scanFrame debug s dt = .ok (scanned, endT)) :
    events_beforeFrame debug (fuel + 1) s dt = .ok scanned := by
  rw [beforeFrame_running debug fuel s dt hrun hscan]
  have hend : 0 ≤ endT := scanFrame_end_nonneg hnonneg hscan
  rw [if_neg]
  intro hc
  linarith [hc.2]

/-- With non-negative delays and durations and passing assertions, a frame
returns within a call depth of two, and the result is one of: the scanned
sequence; the scanned sequence marked complete (no match, `time` before the
call past the last window, no loop); or the scan of the wrapped sequence (no
match, `time` before the call past the last window, loop). -/
theorem beforeFrame_cases (debug : Bool) (fuel : Nat) (s : EventsSequence) (dt : ℚ)
    (hrun : s.running = true) (hnonneg : ∀ event ∈ s.events, nonNegative event)
    (hpass : assertsPass debug s.events) :
    ∃ scanned endT, scanFrame debug s dt = .ok (scanned, endT) ∧
      ((¬ (scanned.triggeredEvent = EVENTS_NONE ∧ s.time > endT) ∧
          events_beforeFrame debug (fuel + 2) s dt = .ok scanned) ∨
       ((scanned.triggeredEvent = EVENTS_NONE ∧ s.time > endT) ∧ s.loop = false ∧
          events_beforeFrame debug (fuel + 2) s dt =
            .ok { scanned with running := false, complete := true }) ∨
       ((scanned.triggeredEvent = EVENTS_NONE ∧ s.time > endT) ∧ s.loop = true ∧
          ∃ wrapped endW,
            scanFrame debug { scanned with time := 0 } (s.time - endT + dt)
              = .ok (wrapped, endW) ∧
            events_beforeFrame debug (fuel + 2) s dt = .ok wrapped)) := by
  obtain ⟨⟨scanned, endT⟩, hscan⟩ := scanFrame_returns debug s dt hpass
  have hfr := scanFrame_frame hscan
  simp only at hfr
  refine ⟨scanned, endT, hscan, ?_⟩
  rw [beforeFrame_running debug (fuel + 1) s dt hrun hscan]
  by_cases hc : scanned.triggeredEvent = EVENTS_NONE ∧ s.time > endT
  · rw [if_pos hc]
    by_cases hl : s.loop = true
    · right; right
      refine ⟨hc, hl, ?_⟩
      have hpassW : assertsPass debug ({ scanned with time := 0 } : EventsSequence).events := by
        simpa [hfr.1] using hpass
      obtain ⟨⟨wrapped, endW⟩, hscanW⟩ :=
        scanFrame_returns debug { scanned with time := 0 } (s.time - endT + dt) hpassW
      refine ⟨wrapped, endW, hscanW, ?_⟩
      rw [if_pos (by rw [hfr.2.1]; exact hl)]
      apply beforeFrame_of_time_nonpos debug fuel _ _ _ (le_refl _) _ hscanW
      · simpa [hfr.2.2.1] using hrun
      · simpa [hfr.1] using hnonneg
    · right; left
      have hl2 : s.loop = false := by simpa using hl
      refine ⟨hc, hl2, ?_⟩
      rw [if_neg (by rw [hfr.2.1, hl2]; simp)]
  · left
    exact ⟨hc, by rw [if_neg hc]⟩

/-- A frame on a running looping sequence returns a running sequence with the
same segment list, loop flag and `complete`. -/
theorem beforeFrame_loop_step (debug : Bool) (fuel : Nat) (s : EventsSequence) (dt : ℚ)
    (hrun : s.running = true) (hloop : s.loop = true)
    (hnonneg : ∀ event ∈ s.events, nonNegative event)
    (hpass : assertsPass debug s.events) :
    ∃ next, events_beforeFrame debug (fuel + 2) s dt = .ok next ∧
      next.events = s.events ∧ next.loop = true ∧ next.running = true ∧
      next.complete = s.complete := by
  obtain ⟨scanned, endT, hscan, hcases⟩ := beforeFrame_cases debug fuel s dt hrun hnonneg hpass
  have hfr := scanFrame_frame hscan
  simp only at hfr
  rcases hcases with ⟨_, hres⟩ | ⟨_, hl, _⟩ | ⟨_, _, wrapped, endW, hscanW, hres⟩
  · exact ⟨scanned, hres, hfr.1, hfr.2.1.trans hloop, hfr.2.2.1.trans hrun, hfr.2.2.2.1⟩
  · rw [hloop] at hl
    cases hl
  · have hfw := scanFrame_frame hscanW
    simp only at hfw
    exact ⟨wrapped, hres, hfw.1.trans hfr.1, hfw.2.1.trans (hfr.2.1.trans hloop),
      hfw.2.2.1.trans (hfr.2.2.1.trans hrun), hfw.2.2.2.1.trans hfr.2.2.2.1⟩

/-- Any number of frames on a running looping sequence that is not complete
returns a running sequence that is not complete. -/
theorem runFrames_loop (debug : Bool) (fuel : Nat) (dts : List ℚ) (s : EventsSequence)
    (hrun : s.running = true) (hloop : s.loop = true) (hcomplete : s.complete = false)
    (hnonneg : ∀ event ∈ s.events, nonNegative event)
    (hpass : assertsPass debug s.events) :
    ∃ last, runFrames debug (fuel + 2) s dts = .ok last ∧
      last.running = true ∧ last.complete = false := by
  induction dts generalizing s with
  | nil => exact ⟨s, rfl, hrun, hcomplete⟩
  | cons dt dts ih =>
    obtain ⟨next, hstep, hev, hl, hr, hc⟩ :=
      beforeFrame_loop_step debug fuel s dt hrun hloop hnonneg hpass
    simp only [runFrames, hstep]
    exact ih next hr hl (hc.trans hcomplete) (by rw [hev]; exact hnonneg)
      (by rw [hev]; exact hpass)

/-- A frame on a running sequence whose scan fails, fails the same way. -/
theorem beforeFrame_scan_error (debug : Bool) (fuel : Nat) (s : EventsSequence) (dt : ℚ)
    (hrun : s.running = true) {f : Fault} (hscan : scanFrame debug s dt = .error f) :
    events_beforeFrame debug (fuel + 1) s dt = .error f := by
  rw [events_beforeFrame]
  simp only [hrun, hscan, Bool.not_true, Bool.false_eq_true, if_false]

/-- A frame entered with `time` not positive needs a call depth of one: more
fuel does not change its result, and it does not run out of fuel. -/
theorem beforeFrame_depth_one (debug : Bool) (fuel : Nat) (s : EventsSequence) (dt : ℚ)
    (htime : s.time ≤ 0) (hnonneg : ∀ event ∈ s.events, nonNegative event) :
    events_beforeFrame debug (fuel + 1) s dt = events_beforeFrame debug 1 s dt ∧
    events_beforeFrame debug 1 s dt ≠ .error Fault.outOfFuel := by
  by_cases hrun : s.running = true
  · cases hscan : scanFrame debug s dt with
    | error f =>
      have hf : f = Fault.assertFailed := scanEvents_error debug _ _ _ _ f hscan
      rw [beforeFrame_scan_error debug fuel s dt hrun hscan,
        beforeFrame_scan_error debug 0 s dt hrun hscan, hf]
      exact ⟨rfl, by intro h; cases h⟩
    | ok r =>
      obtain ⟨scanned, endT⟩ := r
      rw [beforeFrame_of_time_nonpos debug fuel s dt hrun htime hnonneg hscan,
        beforeFrame_of_time_nonpos debug 0 s dt hrun htime hnonneg hscan]
      exact ⟨rfl, by intro h; cases h⟩
  · simp only [Bool.not_eq_true] at hrun
    simp [events_beforeFrame, hrun]

/-- With non-negative delays and durations a frame needs a call depth of at
most two: more fuel does not change its result, and it does not run out of
fuel. -/
theorem beforeFrame_depth_two (debug : Bool) (fuel : Nat) (s : EventsSequence) (dt : ℚ)
    (hnonneg : ∀ event ∈ s.events, nonNegative event) :
    events_beforeFrame debug (fuel + 2) s dt = events_beforeFrame debug 2 s dt ∧
    events_beforeFrame debug 2 s dt ≠ .error Fault.outOfFuel := by
  by_cases hrun : s.running = true
  · cases hscan : scanFrame debug s dt with
    | error f =>
      have hf : f = Fault.assertFailed := scanEvents_error debug _ _ _ _ f hscan
      rw [beforeFrame_scan_error debug (fuel + 1) s dt hrun hscan,
        beforeFrame_scan_error debug 1 s dt hrun hscan, hf]
      exact ⟨rfl, by intro h; cases h⟩
    | ok r =>
      obtain ⟨scanned, endT⟩ := r
      have hfr := scanFrame_frame hscan
      simp only at hfr
      have hone := beforeFrame_depth_one debug fuel { scanned with time := 0 }
        (s.time - endT + dt) (le_refl _) (by rw [← hfr.1] at hnonneg; exact hnonneg)
      rw [beforeFrame_running debug (fuel + 1) s dt hrun hscan,
        beforeFrame_running debug 1 s dt hrun hscan]
      split
      · split
        · exact hone
        · exact ⟨rfl, by intro h; cases h⟩
      · exact ⟨rfl, by intro h; cases h⟩
  · simp only [Bool.not_eq_true] at hrun
    simp [events_beforeFrame, hrun]

/-! ## The flags of the state machine -/

/-- A returning frame keeps the segment list and the loop flag, and either
keeps `running` and `complete` or completes a running sequence without loop. -/
theorem beforeFrame_flags (debug : Bool) (fuel : Nat) (s next : EventsSequence) (dt : ℚ)
    (h : events_beforeFrame debug fuel s dt = .ok next) :
    next.events = s.events ∧ next.loop = s.loop ∧
    ((next.running = s.running ∧ next.complete = s.complete) ∨
      (s.running = true ∧ s.loop = false ∧ next.running = false ∧ next.complete = true)) := by
  induction fuel generalizing s dt with
  | zero => simp [events_beforeFrame] at h
  | succ fuel ih =>
    by_cases hrun : s.running = true
    · cases hscan : scanFrame debug s dt with
      | error f =>
        rw [beforeFrame_scan_error debug fuel s dt hrun hscan] at h
        cases h
      | ok r =>
        obtain ⟨scanned, endT⟩ := r
        have hfr := scanFrame_frame hscan
        simp only at hfr
        rw [beforeFrame_running debug fuel s dt hrun hscan] at h
        split at h
        · split at h
          · rename_i hl
            have hrec := ih { scanned with time := 0 } _ h
            simp only at hrec
            refine ⟨hrec.1.trans hfr.1, hrec.2.1.trans hfr.2.1, ?_⟩
            rcases hrec.2.2 with ⟨hr, hc⟩ | ⟨_, hlf, _, _⟩
            · exact Or.inl ⟨hr.trans hfr.2.2.1, hc.trans hfr.2.2.2.1⟩
            · rw [hl] at hlf
              cases hlf
          · rename_i hl
            simp only [Except.ok.injEq] at h
            subst h
            refine ⟨hfr.1, hfr.2.1, Or.inr ⟨hrun, ?_, rfl, rfl⟩⟩
            rw [← hfr.2.1]
            simpa using hl
        · simp only [Except.ok.injEq] at h
          subst h
          exact ⟨hfr.1, hfr.2.1, Or.inl ⟨hfr.2.2.1, hfr.2.2.2.1⟩⟩
    · simp only [Bool.not_eq_true] at hrun
      simp only [events_beforeFrame, hrun, Bool.not_false, if_true, Except.ok.injEq] at h
      subst h
      exact ⟨rfl, rfl, Or.inl ⟨rfl, rfl⟩⟩

/-- Every reachable state has the segment list and loop flag of its timeline,
and when it is complete it is not running and the timeline does not loop. -/
theorem reachable_flags (debug : Bool) (events : List EventsEvent) (loop : Bool)
    (r : EventsSequence) (h : Reachable debug events loop r) :
    r.events = events ∧ r.loop = loop ∧
    (r.complete = true → r.running = false ∧ loop = false) := by
  induction h with
  | idle =>
    refine ⟨rfl, rfl, ?_⟩
    intro hc
    cases hc
  | start _ ih =>
    unfold events_start
    split
    · exact ih
    · refine ⟨ih.1, ih.2.1, ?_⟩
      intro hc
      cases hc
  | stop _ ih =>
    refine ⟨ih.1, ih.2.1, ?_⟩
    intro hc
    cases hc
  | beforeFrame fuel dt _ hstep ih =>
    have hfl := beforeFrame_flags debug fuel _ _ dt hstep
    refine ⟨hfl.1.trans ih.1, hfl.2.1.trans ih.2.1, ?_⟩
    intro hc
    rcases hfl.2.2 with ⟨hr, hcs⟩ | ⟨_, hlf, hr, _⟩
    · have := ih.2.2 (hcs.symm.trans hc)
      exact ⟨hr.trans this.1, this.2⟩
    · exact ⟨hr, ih.2.1.symm.trans hlf⟩

/-! ## Start, stop and query -/

/-- C7: a second `events_start` changes nothing (`start (start s) = start s`),
and on a running sequence `events_start` is the identity, so `time`,
`triggeredEvent` and `alpha` are not reset. -/
theorem events_start_idempotent (s : EventsSequence) :
    events_start (events_start s) = events_start s ∧
    (s.running = true → events_start s = s) := by
  constructor
  · unfold events_start
    cases h : s.running <;> simp [h]
  · intro h
    simp [events_start, h]

/-- Witness of `events_start_idempotent`: a running sequence in mid-flight. -/
theorem events_start_idempotent_witness :
    ({ events := titleEvents, running := true, time := 1000,
       triggeredEvent := EVENTS_DISPLAY, alpha := 1 / 2 } : EventsSequence).running = true ∧
    events_start (events_start
      { events := titleEvents, running := true, time := 1000,
        triggeredEvent := EVENTS_DISPLAY, alpha := 1 / 2 }) =
      events_start
        { events := titleEvents, running := true, time := 1000,
          triggeredEvent := EVENTS_DISPLAY, alpha := 1 / 2 } ∧
    events_start
      { events := titleEvents, running := true, time := 1000,
        triggeredEvent := EVENTS_DISPLAY, alpha := 1 / 2 } =
      { events := titleEvents, running := true, time := 1000,
        triggeredEvent := EVENTS_DISPLAY, alpha := 1 / 2 } :=
  ⟨rfl, (events_start_idempotent _).1, (events_start_idempotent _).2 rfl⟩

/-- C8: on a sequence that is not running, `events_start` sets `running`,
resets `time`, `triggeredEvent`, `complete` and `alpha`, and keeps the segment
list, its count and the loop flag. -/
theorem events_start_resets (s : EventsSequence) (h : s.running = false) :
    (events_start s).running = true ∧
    (events_start s).time = 0 ∧
    (events_start s).triggeredEvent = EVENTS_NONE ∧
    (events_start s).complete = false ∧
    (events_start s).alpha = 0 ∧
    (events_start s).events = s.events ∧
    (events_start s).count = s.count ∧
    (events_start s).loop = s.loop := by
  simp [events_start, h, EventsSequence.count]

/-- Witness of `events_start_resets`: replaying a completed sequence. -/
theorem events_start_resets_witness :
    ({ events := titleEvents, complete := true, time := 5000 } : EventsSequence).running = false ∧
    (events_start { events := titleEvents, complete := true, time := 5000 }).running = true ∧
    (events_start { events := titleEvents, complete := true, time := 5000 }).time = 0 ∧
    (events_start { events := titleEvents, complete := true, time := 5000 }).complete = false :=
  ⟨rfl, (events_start_resets _ rfl).1, (events_start_resets _ rfl).2.1,
    (events_start_resets _ rfl).2.2.2.1⟩

/-- C9: `events_stop` resets every cursor field whatever the state was, keeps
the segment list, count and loop flag, is idempotent, and leaves no event on. -/
theorem events_stop_resets (s : EventsSequence) :
    (events_stop s).running = false ∧
    (events_stop s).time = 0 ∧
    (events_stop s).triggeredEvent = EVENTS_NONE ∧
    (events_stop s).complete = false ∧
    (events_stop s).alpha = 0 ∧
    (events_stop s).events = s.events ∧
    (events_stop s).count = s.count ∧
    (events_stop s).loop = s.loop ∧
    events_stop (events_stop s) = events_stop s ∧
    ∀ id : Int, (events_on (events_stop s) id).1 = false := by
  simp [events_stop, events_on, EventsSequence.count]

/-- C10: `events_on` answers true exactly when the sequence is running, the
triggered event is the queried id and that id is not the sentinel; it answers
false for the sentinel and on a sequence that is not running, and hands the
sequence back unchanged. -/
theorem events_on_iff (s : EventsSequence) (id : Int) :
    ((events_on s id).1 = true ↔
      (s.running = true ∧ s.triggeredEvent = id ∧ id ≠ EVENTS_NONE)) ∧
    (events_on s EVENTS_NONE).1 = false ∧
    (s.running = false → ∀ other : Int, (events_on s other).1 = false) ∧
    (events_on s id).2 = s := by
  refine ⟨?_, ?_, ?_, ?_⟩
  · unfold events_on
    by_cases hr : s.running = true
    · by_cases ht : s.triggeredEvent = EVENTS_NONE
      · simp [hr, ht]
        intro h1
        exact h1.symm
      · simp [hr, ht]
        intro h
        rw [← h]
        exact ht
    · simp [hr]
  · unfold events_on
    by_cases hr : s.running = true
    · by_cases ht : s.triggeredEvent = EVENTS_NONE
      · simp [hr, ht]
      · simp [hr, ht]
    · simp [hr]
  · intro h other
    simp [events_on, h]
  · unfold events_on
    split <;> rfl

/-- Witness of `events_on_iff`: a stopped sequence answers false for every id. -/
theorem events_on_iff_witness :
    ({ events := titleEvents, triggeredEvent := EVENTS_FADE } : EventsSequence).running = false ∧
    (events_on { events := titleEvents, triggeredEvent := EVENTS_FADE } EVENTS_FADE).1 = false :=
  ⟨rfl, (events_on_iff { events := titleEvents, triggeredEvent := EVENTS_FADE } EVENTS_FADE).2.2.1
    rfl EVENTS_FADE⟩

/-! ## Frames on a sequence that is not running -/

/-- C6: on a sequence that is not running (in particular a completed one)
`events_beforeFrame` returns the sequence itself, for every `dt`, and so does
any number of further calls. -/
theorem beforeFrame_not_running_noop (debug : Bool) (fuel : Nat) (s : EventsSequence)
    (dt : ℚ) (dts : List ℚ) (hrun : s.running = false) :
    events_beforeFrame debug (fuel + 1) s dt = .ok s ∧
    runFrames debug (fuel + 1) s dts = .ok s := by
  have hstep : ∀ d : ℚ, events_beforeFrame debug (fuel + 1) s d = .ok s := by
    intro d
    simp [events_beforeFrame, hrun]
  refine ⟨hstep dt, ?_⟩
  induction dts with
  | nil => rfl
  | cons d ds ih => simp [runFrames, hstep d, ih]

/-- Witness of `beforeFrame_not_running_noop`: a completed title sequence. -/
theorem beforeFrame_not_running_noop_witness :
    ({ events := titleEvents, complete := true, time := 5000 } : EventsSequence).running = false ∧
    events_beforeFrame true 1 { events := titleEvents, complete := true, time := 5000 } 16 =
      .ok { events := titleEvents, complete := true, time := 5000 } ∧
    runFrames true 1 { events := titleEvents, complete := true, time := 5000 } [16, 17, 16] =
      .ok { events := titleEvents, complete := true, time := 5000 } :=
  ⟨rfl, beforeFrame_not_running_noop true 0 _ 16 [16, 17, 16] rfl⟩

/-! ## The scan of a frame and its invariants -/

/-- C5: for a looping timeline with non-negative delays and durations (and
assertions that pass), started by `events_start` from a state that is not
both running and complete, any list of frames, whatever the `dt` values,
returns a state that is running and not complete. -/
theorem loop_never_completes (debug : Bool) (fuel : Nat) (s : EventsSequence) (dts : List ℚ)
    (hloop : s.loop = true)
    (hnonneg : ∀ event ∈ s.events, nonNegative event)
    (hpass : assertsPass debug s.events)
    (hfresh : s.running = true → s.complete = false) :
    ∃ last, runFrames debug (fuel + 2) (events_start s) dts = .ok last ∧
      last.running = true ∧ last.complete = false := by
  apply runFrames_loop
  · unfold events_start
    split
    · assumption
    · rfl
  · unfold events_start
    split
    · exact hloop
    · exact hloop
  · unfold events_start
    split
    · rename_i h
      exact hfresh h
    · rfl
  · unfold events_start
    split
    · exact hnonneg
    · exact hnonneg
  · unfold events_start
    split
    · exact hpass
    · exact hpass

/-- Witness of `loop_never_completes`: the looping game-over prompt driven by a
frame of 2500 and a frame of 100000. -/
theorem loop_never_completes_witness :
    events_gameOverRestartSequence.loop = true ∧
    (∀ event ∈ events_gameOverRestartSequence.events, nonNegative event) ∧
    assertsPass true events_gameOverRestartSequence.events ∧
    (events_gameOverRestartSequence.running = true →
      events_gameOverRestartSequence.complete = false) ∧
    ∃ last,
      runFrames true 2 (events_start events_gameOverRestartSequence) [2500, 100000]
        = .ok last ∧
      last.running = true ∧ last.complete = false := by
  have hnonneg : ∀ event ∈ events_gameOverRestartSequence.events, nonNegative event := by
    norm_num [events_gameOverRestartSequence, gameOverRestartEvents, nonNegative]
  have hpass : assertsPass true events_gameOverRestartSequence.events := by
    intro _
    norm_num [events_gameOverRestartSequence, gameOverRestartEvents, meetsThreshold,
      MIN_EVENT_TIME]
  exact ⟨rfl, hnonneg, hpass, fun _ => rfl,
    loop_never_completes true 0 events_gameOverRestartSequence [2500, 100000] rfl hnonneg
      hpass (fun _ => rfl)⟩

/-! ## Scenarios on the presets -/

/-- C2 (as the code behaves): on `events_titleControlSequence`, after
`events_start` and a frame of 1600 the title event is on; after a second frame
of 1600 (`time = 3200`) the title event is still on and the subtitle event is
not, because the title window ends at 1600, which is not before the previous
`time` 1600; after a third frame of 1600 the subtitle event is on and the
title event is not. -/
theorem scenarioA_titleControl (debug : Bool) (fuel : Nat) :
    ∃ s1 s2 s3 : EventsSequence,
      events_beforeFrame debug (fuel + 1) (events_start events_titleControlSequence) 1600
        = .ok s1 ∧
      (events_on s1 EVENTS_TITLE).1 = true ∧
      events_beforeFrame debug (fuel + 1) s1 1600 = .ok s2 ∧
      s2.time = 3200 ∧
      (events_on s2 EVENTS_TITLE).1 = true ∧
      (events_on s2 EVENTS_SUBTITLE).1 = false ∧
      events_beforeFrame debug (fuel + 1) s2 1600 = .ok s3 ∧
      (events_on s3 EVENTS_SUBTITLE).1 = true ∧
      (events_on s3 EVENTS_TITLE).1 = false := by
  refine ⟨{ events := titleControlEvents, running := true, time := 1600,
            triggeredEvent := EVENTS_TITLE },
          { events := titleControlEvents, running := true, time := 3200,
            triggeredEvent := EVENTS_TITLE },
          { events := titleControlEvents, running := true, time := 4800,
            triggeredEvent := EVENTS_SUBTITLE }, ?_⟩
  norm_num [events_beforeFrame, scanFrame, scanEvents, events_start, events_on,
    events_titleControlSequence, titleControlEvents, DEBUG_ASSERT, MIN_EVENT_TIME,
    EVENTS_NONE, EVENTS_TITLE, EVENTS_SUBTITLE]

/-- C2 (counterexample to the claim as stated): after `events_start` and two
frames of 1600 on `events_titleControlSequence`, `time` is 3200, the subtitle
event is not on and the title event is on. -/
theorem scenarioA_subtitle_not_on :
    runFrames true 2 (events_start events_titleControlSequence) [1600, 1600] =
      .ok { events := titleControlEvents, running := true, time := 3200,
            triggeredEvent := EVENTS_TITLE } ∧
    (events_on { events := titleControlEvents, running := true, time := 3200,
                 triggeredEvent := EVENTS_TITLE } EVENTS_SUBTITLE).1 = false ∧
    (events_on { events := titleControlEvents, running := true, time := 3200,
                 triggeredEvent := EVENTS_TITLE } EVENTS_TITLE).1 = true := by
  norm_num [runFrames, events_beforeFrame, scanFrame, scanEvents, events_start, events_on,
    events_titleControlSequence, titleControlEvents, DEBUG_ASSERT, MIN_EVENT_TIME,
    EVENTS_NONE, EVENTS_TITLE, EVENTS_SUBTITLE]

/-- C3 (as the code behaves): on `events_titleSequence`, after `events_start`
and a frame of 1000 the display event is on with `alpha = 1/2`; after a
further frame of 1500 (`time = 2500`) the display event is still on, with
`alpha` clamped to 1, and the fade event is not on, because the display window
ends at 2000, which is not before the previous `time` 1000; after one more
frame of 0 (`time` still 2500) the fade event is on with
`alpha = (2500 - 2000) / 2500 = 1/5`. -/
theorem scenarioB_title (debug : Bool) (fuel : Nat) :
    ∃ s1 s2 s3 : EventsSequence,
      events_beforeFrame debug (fuel + 1) (events_start events_titleSequence) 1000 = .ok s1 ∧
      (events_on s1 EVENTS_DISPLAY).1 = true ∧
      s1.alpha = 1 / 2 ∧
      events_beforeFrame debug (fuel + 1) s1 1500 = .ok s2 ∧
      s2.time = 2500 ∧
      (events_on s2 EVENTS_DISPLAY).1 = true ∧
      (events_on s2 EVENTS_FADE).1 = false ∧
      s2.alpha = 1 ∧
      events_beforeFrame debug (fuel + 1) s2 0 = .ok s3 ∧
      s3.time = 2500 ∧
      (events_on s3 EVENTS_FADE).1 = true ∧
      (events_on s3 EVENTS_DISPLAY).1 = false ∧
      s3.alpha = (2500 - 2000) / 2500 ∧
      s3.alpha = 1 / 5 := by
  refine ⟨{ events := titleEvents, running := true, time := 1000,
            triggeredEvent := EVENTS_DISPLAY, alpha := 1 / 2 },
          { events := titleEvents, running := true, time := 2500,
            triggeredEvent := EVENTS_DISPLAY, alpha := 1 },
          { events := titleEvents, running := true, time := 2500,
            triggeredEvent := EVENTS_FADE, alpha := 1 / 5 }, ?_⟩
  norm_num [events_beforeFrame, scanFrame, scanEvents, events_start, events_on,
    events_titleSequence, titleEvents, DEBUG_ASSERT, MIN_EVENT_TIME,
    EVENTS_NONE, EVENTS_DISPLAY, EVENTS_FADE]

/-- C3 (counterexample to the claim as stated): after `events_start` and frames
of 1000 and 1500 on `events_titleSequence`, `time` is 2500, the fade event is
not on, and `alpha` is 1 rather than 1/5. -/
theorem scenarioB_fade_not_on :
    runFrames true 2 (events_start events_titleSequence) [1000, 1500] =
      .ok { events := titleEvents, running := true, time := 2500,
            triggeredEvent := EVENTS_DISPLAY, alpha := 1 } ∧
    (events_on { events := titleEvents, running := true, time := 2500,
                 triggeredEvent := EVENTS_DISPLAY, alpha := 1 } EVENTS_FADE).1 = false ∧
    (1 : ℚ) ≠ (2500 - 2000) / 2500 := by
  norm_num [runFrames, events_beforeFrame, scanFrame, scanEvents, events_start, events_on,
    events_titleSequence, titleEvents, DEBUG_ASSERT, MIN_EVENT_TIME,
    EVENTS_NONE, EVENTS_DISPLAY, EVENTS_FADE]

/-- C11 (as the code behaves): on the looping `events_gameOverRestartSequence`,
after `events_start` and one frame of 2500 the display event is on, `time` is
2500 (the frame interval `[0, 2500]` touches the display window `[0, 1000]`, so
nothing wraps and `alpha` is clamped to 1) and `complete` is false; the wrap
takes place in the next call: after a further frame of 0, `time` is 500, the
display event is on with `alpha = 1/2`, and `complete` is false. -/
theorem scenarioC_gameOverRestart (debug : Bool) (fuel : Nat) :
    ∃ s1 s2 : EventsSequence,
      events_beforeFrame debug (fuel + 2) (events_start events_gameOverRestartSequence) 2500
        = .ok s1 ∧
      (events_on s1 EVENTS_DISPLAY).1 = true ∧
      s1.time = 2500 ∧
      s1.alpha = 1 ∧
      s1.complete = false ∧
      events_beforeFrame debug (fuel + 2) s1 0 = .ok s2 ∧
      s2.time = 500 ∧
      (events_on s2 EVENTS_DISPLAY).1 = true ∧
      s2.alpha = 1 / 2 ∧
      s2.complete = false := by
  refine ⟨{ events := gameOverRestartEvents, loop := true, running := true, time := 2500,
            triggeredEvent := EVENTS_DISPLAY, alpha := 1 },
          { events := gameOverRestartEvents, loop := true, running := true, time := 500,
            triggeredEvent := EVENTS_DISPLAY, alpha := 1 / 2 }, ?_⟩
  norm_num [events_beforeFrame, scanFrame, scanEvents, events_start, events_on,
    events_gameOverRestartSequence, gameOverRestartEvents, DEBUG_ASSERT, MIN_EVENT_TIME,
    EVENTS_NONE, EVENTS_DISPLAY]

/-- C11 (counterexample to the claim as stated): after `events_start` and one
frame of 2500 on `events_gameOverRestartSequence`, `time` is 2500, not 500. -/
theorem scenarioC_time_not_wrapped :
    events_beforeFrame true 2 (events_start events_gameOverRestartSequence) 2500 =
      .ok { events := gameOverRestartEvents, loop := true, running := true, time := 2500,
            triggeredEvent := EVENTS_DISPLAY, alpha := 1 } ∧
    (2500 : ℚ) ≠ 500 := by
  norm_num [events_beforeFrame, scanFrame, scanEvents, events_start,
    events_gameOverRestartSequence, gameOverRestartEvents, DEBUG_ASSERT, MIN_EVENT_TIME,
    EVENTS_NONE, EVENTS_DISPLAY]

/-! ## Elapsed time, completion and the loop wrap -/

/-- C18: with non-negative delays and durations (the empty timeline included)
and any `dt`, `events_beforeFrame` terminates within a call depth of two, that
is, with at most one recursive call: it does not run out of fuel at depth two
and more fuel does not change the result; and a call entered with `time = 0`,
as the recursive call is, needs a depth of one only. -/
theorem recursion_depth_two (debug : Bool) (fuel : Nat) (s : EventsSequence) (dt : ℚ)
    (hnonneg : ∀ event ∈ s.events, nonNegative event) :
    events_beforeFrame debug 2 s dt ≠ .error Fault.outOfFuel ∧
    events_beforeFrame debug (fuel + 2) s dt = events_beforeFrame debug 2 s dt ∧
    (∀ loopDt : ℚ,
      events_beforeFrame debug 1 { s with time := 0 } loopDt ≠ .error Fault.outOfFuel ∧
      events_beforeFrame debug (fuel + 1) { s with time := 0 } loopDt =
        events_beforeFrame debug 1 { s with time := 0 } loopDt) := by
  refine ⟨(beforeFrame_depth_two debug fuel s dt hnonneg).2,
    (beforeFrame_depth_two debug fuel s dt hnonneg).1, ?_⟩
  intro loopDt
  have h := beforeFrame_depth_one debug fuel { s with time := 0 } loopDt (le_refl _) hnonneg
  exact ⟨h.2, h.1⟩

/-- Witness of `recursion_depth_two`: the empty looping timeline at `time = 5`
wraps once on a frame of 1 and returns with `time = 6`. -/
theorem recursion_depth_two_witness :
    (∀ event ∈ emptyLoopSequence.events, nonNegative event) ∧
    events_beforeFrame true 2 emptyLoopSequence 1 ≠ .error Fault.outOfFuel ∧
    events_beforeFrame true 7 emptyLoopSequence 1 = events_beforeFrame true 2 emptyLoopSequence 1 ∧
    events_beforeFrame true 2 emptyLoopSequence 1 =
      .ok { events := [], loop := true, running := true, time := 6 } ∧
    events_beforeFrame true 1 emptyLoopSequence 1 = .error Fault.outOfFuel := by
  have hnonneg : ∀ event ∈ emptyLoopSequence.events, nonNegative event := by
    simp [emptyLoopSequence]
  refine ⟨hnonneg, (recursion_depth_two true 5 emptyLoopSequence 1 hnonneg).1,
    (recursion_depth_two true 5 emptyLoopSequence 1 hnonneg).2.1, ?_, ?_⟩
  · norm_num [events_beforeFrame, scanFrame, scanEvents, emptyLoopSequence, EVENTS_NONE]
  · norm_num [events_beforeFrame, scanFrame, scanEvents, emptyLoopSequence, EVENTS_NONE]

/-! ## The progress value and frames from time zero -/

/-- C19: on a running sequence with `time = 0` and non-negative delays and
durations (and assertions that pass), a frame returns the scanned sequence,
and `triggeredEvent` is the id of segment 0 when its delay is at most `dt`
(the scan stops at window 0) and the sentinel otherwise (the scan runs to the
total span), also for an empty list; whenever any window passes the match
test, window 0 does, so no later segment is ever the one reported. -/
theorem first_segment_only_from_zero (debug : Bool) (fuel : Nat) (s : EventsSequence) (dt : ℚ)
    (hrun : s.running = true) (htime : s.time = 0)
    (hnonneg : ∀ event ∈ s.events, nonNegative event)
    (hpass : assertsPass debug s.events) :
    ∃ scanned endT, scanFrame debug s dt = .ok (scanned, endT) ∧
      events_beforeFrame debug (fuel + 1) s dt = .ok scanned ∧
      (s.events = [] → scanned.triggeredEvent = EVENTS_NONE) ∧
      (∀ first rest, s.events = first :: rest →
        (first.delay ≤ dt →
          scanned.triggeredEvent = first.id ∧ endT = windowEnd s.events 0) ∧
        (¬ first.delay ≤ dt →
          scanned.triggeredEvent = EVENTS_NONE ∧ endT = totalSpan s.events)) ∧
      (∀ i, i < s.count → windowHit s.events (s.time + dt) s.time i →
        windowHit s.events (s.time + dt) s.time 0) := by
  obtain ⟨⟨scanned, endT⟩, hscan⟩ := scanFrame_returns debug s dt hpass
  have hres := beforeFrame_of_time_nonpos debug fuel s dt hrun (le_of_eq htime) hnonneg hscan
  have hfirst := scanEvents_first_hit debug s.time _ _ 0 _ hscan
  simp only at hfirst
  refine ⟨scanned, endT, hscan, hres, ?_, ?_, ?_⟩
  · intro hnil
    have h := hfirst.2 (by intro i hi; rw [hnil] at hi; exact absurd hi (Nat.not_lt_zero _))
    exact h.1
  · intro first rest hev
    have hfst := hnonneg first (by rw [hev]; exact List.mem_cons_self _ _)
    unfold nonNegative at hfst
    constructor
    · intro hle
      have h := hfirst.1 0 (by rw [hev]; exact Nat.succ_pos _)
        (by
          rw [hev, htime]
          simp only [priorWindowEndFrom, List.getD_cons_zero]
          constructor <;> linarith [hfst.1, hfst.2])
        (fun j hj => absurd hj (Nat.not_lt_zero j))
      rw [hev] at h
      refine ⟨by simpa using h.1, ?_⟩
      rw [h.2, hev]
      simp [windowEnd, windowStart, priorWindowEnd, priorWindowEndFrom]
    · intro hgt
      have hnone : ∀ i, i < s.events.length →
          ¬ (priorWindowEndFrom 0 s.events i + (s.events.getD i {}).delay ≤ s.time + dt ∧
            priorWindowEndFrom 0 s.events (i + 1) ≥ s.time) := by
        intro i hi hhit
        have hge : (0 : ℚ) ≤ priorWindowEndFrom 0 s.events i :=
          priorWindowEndFrom_ge s.events hnonneg 0 i (le_of_lt hi)
        have hstart := hhit.1
        rw [htime] at hstart
        cases i with
        | zero =>
          rw [hev] at hstart
          simp only [priorWindowEndFrom, List.getD_cons_zero] at hstart
          exact hgt (by linarith)
        | succ k =>
          rw [hev] at hstart hi
          rw [priorWindowEndFrom_cons, List.getD_cons_succ] at hstart
          have hrest : ∀ e ∈ rest, nonNegative e := fun e he =>
            hnonneg e (by rw [hev]; exact List.mem_cons_of_mem _ he)
          have hk : k < rest.length := Nat.lt_of_succ_lt_succ hi
          have hge2 := priorWindowEndFrom_ge rest hrest (0 + first.delay + first.duration) k
            (le_of_lt hk)
          have hdk := hrest (rest.getD k {}) (by
            rw [List.getD_eq_getElem _ _ hk]
            exact List.getElem_mem _)
          unfold nonNegative at hdk
          exact hgt (by linarith [hfst.2, hdk.1])
      have h := hfirst.2 hnone
      refine ⟨h.1, ?_⟩
      rw [h.2, priorWindowEndFrom_length]
      ring
  · intro i hi hhit
    cases hev : s.events with
    | nil =>
      rw [EventsSequence.count, hev] at hi
      exact absurd hi (Nat.not_lt_zero _)
    | cons first rest =>
      have hfst := hnonneg first (by rw [hev]; exact List.mem_cons_self _ _)
      unfold nonNegative at hfst
      have hstart := ((windowHit_iff_from _ _ _ _).mp hhit).1
      rw [hev] at hstart
      simp only [EventsSequence.count, hev] at hi
      have hle : first.delay ≤ s.time + dt := by
        cases i with
        | zero =>
          simp only [priorWindowEndFrom, List.getD_cons_zero] at hstart
          linarith
        | succ k =>
          rw [priorWindowEndFrom_cons, List.getD_cons_succ] at hstart
          have hrest : ∀ e ∈ rest, nonNegative e := fun e he =>
            hnonneg e (by rw [hev]; exact List.mem_cons_of_mem _ he)
          have hk : k < rest.length := Nat.lt_of_succ_lt_succ hi
          have hge2 := priorWindowEndFrom_ge rest hrest (0 + first.delay + first.duration) k
            (le_of_lt hk)
          have hdk := hrest (rest.getD k {}) (by
            rw [List.getD_eq_getElem _ _ hk]
            exact List.getElem_mem _)
          unfold nonNegative at hdk
          linarith [hfst.2, hdk.1]
      rw [windowHit_iff_from]
      rw [windowHitFrom_zero]
      constructor
      · linarith
      · rw [htime]
        linarith [hfst.1, hfst.2]

/-- Witness of `first_segment_only_from_zero`: the started title-control
sequence and a frame of 5000, whose interval also covers the subtitle window
at 3200; the title event of segment 0 is the one reported. -/
theorem first_segment_only_from_zero_witness :
    (events_start events_titleControlSequence).running = true ∧
    (events_start events_titleControlSequence).time = 0 ∧
    (∀ event ∈ (events_start events_titleControlSequence).events, nonNegative event) ∧
    assertsPass true (events_start events_titleControlSequence).events ∧
    ∃ scanned endT,
      scanFrame true (events_start events_titleControlSequence) 5000 = .ok (scanned, endT) ∧
      events_beforeFrame true 1 (events_start events_titleControlSequence) 5000 = .ok scanned ∧
      scanned.triggeredEvent = EVENTS_TITLE := by
  have hnonneg : ∀ event ∈ (events_start events_titleControlSequence).events,
      nonNegative event := by
    norm_num [events_start, events_titleControlSequence, titleControlEvents, nonNegative]
  have hpass : assertsPass true (events_start events_titleControlSequence).events := by
    intro _
    norm_num [events_start, events_titleControlSequence, titleControlEvents, meetsThreshold,
      MIN_EVENT_TIME]
  obtain ⟨scanned, endT, hscan, hres, _, hcons, _⟩ :=
    first_segment_only_from_zero true 0 (events_start events_titleControlSequence) 5000
      rfl rfl hnonneg hpass
  refine ⟨rfl, rfl, hnonneg, hpass, scanned, endT, hscan, hres, ?_⟩
  have h := (hcons { delay := 1600, id := EVENTS_TITLE } [{ delay := 1600, id := EVENTS_SUBTITLE }]
    rfl).1 (by norm_num)
  exact h.1

/-! ## The state machine -/

/-- C20: in every state reachable from the idle timeline by `events_start`,
`events_stop` and returning frames, `complete = true` implies
`running = false`, and a complete state only exists when the timeline does
not loop; `events_start` and `events_stop` lead to `complete = false`, and a
frame that turns `complete` from false to true was called on a running
sequence with `loop = false`. -/
theorem complete_implies_not_running (debug : Bool) (events : List EventsEvent) (loop : Bool)
    (r : EventsSequence) (h : Reachable debug events loop r) :
    (r.complete = true → r.running = false) ∧
    (r.complete = true → loop = false) ∧
    (events_start r).complete = false ∧
    (events_stop r).complete = false ∧
    (∀ (fuel : Nat) (dt : ℚ) (next : EventsSequence),
      events_beforeFrame debug fuel r dt = .ok next →
      r.complete = false → next.complete = true →
      r.loop = false ∧ r.running = true ∧ next.running = false) := by
  have hfl := reachable_flags debug events loop r h
  refine ⟨fun hc => (hfl.2.2 hc).1, fun hc => (hfl.2.2 hc).2, ?_, rfl, ?_⟩
  · unfold events_start
    split
    · rename_i hrun
      cases hc : r.complete with
      | false => rfl
      | true =>
        have := (hfl.2.2 hc).1
        rw [hrun] at this
        cases this
    · rfl
  · intro fuel dt next hstep hc hnext
    have hflags := beforeFrame_flags debug fuel r next dt hstep
    rcases hflags.2.2 with ⟨_, hcs⟩ | ⟨hr, hl, hnr, _⟩
    · rw [hcs, hc] at hnext
      cases hnext
    · exact ⟨hl, hr, hnr⟩

/-- Witness of `complete_implies_not_running`: the title sequence started,
advanced by 5000 and then by 0 is reachable, complete and not running. -/
theorem complete_implies_not_running_witness :
    Reachable true titleEvents false titleCompleted ∧
    titleCompleted.complete = true ∧
    titleCompleted.running = false := by
  have h1 : events_beforeFrame true 1 (events_start { events := titleEvents, loop := false })
      5000 = .ok { events := titleEvents, running := true, time := 5000,
                   triggeredEvent := EVENTS_DISPLAY, alpha := 1 } := by
    norm_num [events_beforeFrame, scanFrame, scanEvents, events_start, titleEvents,
      DEBUG_ASSERT, MIN_EVENT_TIME, EVENTS_NONE, EVENTS_DISPLAY, EVENTS_FADE]
  have h2 : events_beforeFrame true 1
      { events := titleEvents, running := true, time := 5000,
        triggeredEvent := EVENTS_DISPLAY, alpha := 1 } 0 = .ok titleCompleted := by
    norm_num [events_beforeFrame, scanFrame, scanEvents, titleEvents, titleCompleted,
      DEBUG_ASSERT, MIN_EVENT_TIME, EVENTS_NONE, EVENTS_DISPLAY, EVENTS_FADE]
  have hreach : Reachable true titleEvents false titleCompleted :=
    Reachable.beforeFrame 1 0
      (Reachable.beforeFrame 1 5000 (Reachable.start Reachable.idle) h1) h2
  exact ⟨hreach, rfl,
    (complete_implies_not_running true titleEvents false titleCompleted hreach).1 rfl⟩

end Events
